/-
Verification of the live-reload documentation servers in `scripts/`
(`live-server.py`, `preview-docs.py`, `serve-docs.py`).

The development shallowly embeds the parts of the three Python scripts that
the specification talks about:

* the change detector of `live-server.py` (`watch_files`): a per-file scan
  step over a snapshot `file_mtimes : path ↦ mtime` and a boolean
  `should_reload` flag;
* the reload-check endpoint of `live-server.py`
  (`do_GET` on `/__live_reload_check__`): read-and-clear of the flag;
* the HTML injection step of all three scripts: Python
  `bytes.replace`/`str.replace` of every occurrence of `</body>`,
  modelled byte-for-byte (`List Char` stands for the byte string, all
  script literals are ASCII);
* the text-mode file read of `preview-docs.py` and `serve-docs.py`
  (`open(..., 'r', encoding='utf-8')` then `.encode('utf-8')` on write):
  universal-newline translation of the decoded text, with the
  `UnicodeDecodeError` path modelled by `Except.error`;
* the scan of `preview-docs.py` (`get_last_modified_time`) and the
  watermark cycle of `serve-docs.py` (`watch_files`), with a fallible
  `stat` modelled as `Option Nat` (`none` = the `OSError` case);
* the startup paths of the three `main`s (missing docs directory,
  failing bind).

Modification times are modelled as `Nat`: only their ordering matters to
the code.  `replaceFuel`/`countFuel`/`splitFuel` use a fuel argument
(`fuel := s.length` at the call sites, always sufficient) so that every
definition is structurally recursive and kernel-evaluable.
-/
import Mathlib

set_option maxRecDepth 100000

namespace IGScraper

/-! ### Python `bytes.replace`, `in`, and occurrence counting

`live-server.py` line 89: `content.replace(b'</body>', reload_script)`;
`preview-docs.py` line 73 and `serve-docs.py` line 63:
`content.replace('</body>', reload_script + '</body>')`.
Python replaces every non-overlapping occurrence, scanning left to right.
The fuel argument only serves termination; with `fuel ≥ s.length` (as in
the wrappers below) it is never exhausted.  The `pat ≠ []` guard is
irrelevant at the call sites (the pattern is always `</body>`). -/

/-- One left-to-right pass replacing each non-overlapping occurrence of
`pat` by `rep`, the semantics of Python `bytes.replace` for a nonempty
pattern. -/
def replaceFuel (pat rep : List Char) : Nat → List Char → List Char
  | 0, s => s
  | Nat.succ fuel, s =>
    match s with
    | [] => []
    | c :: rest =>
      if pat ≠ [] ∧ pat.isPrefixOf (c :: rest) then
        rep ++ replaceFuel pat rep fuel ((c :: rest).drop pat.length)
      else
        c :: replaceFuel pat rep fuel rest

/-- Number of non-overlapping occurrences of `pat`, counted the same way
`bytes.replace` finds them. -/
def countFuel (pat : List Char) : Nat → List Char → Nat
  | 0, _ => 0
  | Nat.succ fuel, s =>
    match s with
    | [] => 0
    | c :: rest =>
      if pat ≠ [] ∧ pat.isPrefixOf (c :: rest) then
        1 + countFuel pat fuel ((c :: rest).drop pat.length)
      else
        countFuel pat fuel rest

/-- The segments of `s` between the non-overlapping occurrences of `pat`:
`s` is the segments interleaved with `pat`, and `bytes.replace` yields the
segments interleaved with the replacement (proved below). -/
def splitFuel (pat : List Char) : Nat → List Char → List (List Char)
  | 0, s => [s]
  | Nat.succ fuel, s =>
    match s with
    | [] => [[]]
    | c :: rest =>
      if pat ≠ [] ∧ pat.isPrefixOf (c :: rest) then
        [] :: splitFuel pat fuel ((c :: rest).drop pat.length)
      else
        match splitFuel pat fuel rest with
        | [] => [[c]]
        | seg :: segs => (c :: seg) :: segs

/-- Python `pat in content` (contiguous subsequence test). -/
def containsSeq (pat : List Char) : List Char → Bool
  | [] => pat.isEmpty
  | c :: rest => pat.isPrefixOf (c :: rest) || containsSeq pat rest

/-- Python `content.replace(pat, rep)` with fuel instantiated. -/
def bytesReplace (pat rep s : List Char) : List Char :=
  replaceFuel pat rep s.length s

/-- Python `content.count(pat)`: how many occurrences `replace` rewrites. -/
def bytesCount (pat s : List Char) : Nat :=
  countFuel pat s.length s

/-- The segments of `s` around occurrences of `pat`. -/
def splitSegs (pat s : List Char) : List (List Char) :=
  splitFuel pat s.length s

/-- Interleave `sep` between consecutive segments. -/
def joinWith (sep : List Char) : List (List Char) → List Char
  | [] => []
  | [a] => a
  | a :: b :: rest => a ++ sep ++ joinWith sep (b :: rest)

example : bytesReplace "ab".data "X".data "zabzab".data = "zXzX".data := by decide
example : bytesCount "</body>".data "<p></body>".data = 1 := by decide
example : containsSeq "</body>".data "<p>x</p>".data = false := by decide
example : splitSegs "ab".data "zabw".data = ["z".data, "w".data] := by decide
example : joinWith "ab".data ["z".data, "w".data] = "zabw".data := by decide

/-! ### The change detector of `live-server.py`

Globals (`live-server.py` lines 30-31): `file_mtimes = {}`,
`should_reload = False`.  The dictionary is modelled as an insertion-order
association list, matching Python dict update semantics. -/

/-- The mutable globals of `live-server.py`: the File Snapshot
`file_mtimes` and the boolean Reload Signal `should_reload`. -/
structure WatchState where
  file_mtimes : List (String × Nat)
  should_reload : Bool
  deriving Repr, DecidableEq

/-- Python `filepath in file_mtimes` / `file_mtimes[filepath]` (dict read). -/
def lookupMtime : List (String × Nat) → String → Option Nat
  | [], _ => none
  | (q, v) :: rest, p => if q = p then some v else lookupMtime rest p

/-- Python `file_mtimes[filepath] = mtime` (dict write: update in place,
else append). -/
def setMtime : List (String × Nat) → String → Nat → List (String × Nat)
  | [], p, m => [(p, m)]
  | (q, v) :: rest, p, m =>
    if q = p then (q, m) :: rest else (q, v) :: setMtime rest p m

/-- The set `WATCH_EXTENSIONS` (`live-server.py` line 19). -/
def WATCH_EXTENSIONS : List String := [".html", ".css", ".js", ".json", ".md"]

/-- The test `any(file.endswith(ext) for ext in WATCH_EXTENSIONS)`
(`live-server.py` line 129). -/
def watchedExt (name : String) : Bool :=
  WATCH_EXTENSIONS.any (fun ext => ext.data.isSuffixOf name.data)

/-- One file as the directory walk observes it: `name` is the basename
tested against the extensions, `path` is `os.path.join(root, file)`, and
`mtime` is the result of `os.path.getmtime` (`none` models the `OSError`
raised when the file vanished between listing and stat). -/
structure FileObs where
  path : String
  name : String
  mtime : Option Nat
  deriving Repr

/-- The body of the inner loop of `watch_files` for one file
(`live-server.py` lines 128-142): on a watched extension, stat; on
`OSError`, `pass`; if the path is already in the snapshot and the new
mtime is strictly greater, set `should_reload = True`; in every non-error
case record the new mtime. -/
def processFile (st : WatchState) (f : FileObs) : WatchState :=
  if watchedExt f.name then
    match f.mtime with
    | none => st
    | some m =>
      let st1 :=
        match lookupMtime st.file_mtimes f.path with
        | none => st
        | some prev => if prev < m then { st with should_reload := true } else st
      { st1 with file_mtimes := setMtime st1.file_mtimes f.path m }
  else st

/-- One detector cycle of `watch_files` (`live-server.py` lines 124-142):
the walk yields the files in `fs`, each processed by `processFile`. -/
def runCycle (st : WatchState) (fs : List FileObs) : WatchState :=
  fs.foldl processFile st

/-- One iteration of the `while True` loop of `watch_files`
(`live-server.py` lines 122-147), returning the next state and the sleep
in milliseconds.  `raised` models the `except Exception` arm: the walk
raised after yielding `obs`; earlier in-place updates to the globals
persist, the handler prints, sleeps 1 s and the loop continues. -/
inductive WalkOutcome where
  | finished (obs : List FileObs)
  | raised (obs : List FileObs)
  deriving Repr

/-- The constant `CHECK_INTERVAL = 0.5` seconds (`live-server.py` line 20), in ms. -/
def CHECK_INTERVAL_MS : Nat := 500

def loopStep (st : WatchState) : WalkOutcome → WatchState × Nat
  | .finished obs => (runCycle st obs, CHECK_INTERVAL_MS)
  | .raised obs => (runCycle st obs, 1000)

/-! ### The reload-check endpoint of `live-server.py`

`do_GET` on `/__live_reload_check__` (`live-server.py` lines 44-52):
writes `{"reload": <flag>}` from the current flag, then clears the flag
if it was set. -/

/-- The body `f-string` of the poll response (`live-server.py` line 50). -/
def reloadCheckBody (b : Bool) : String :=
  "\x7b\"reload\": " ++ (if b then "true" else "false") ++ "\x7d"

/-- The reload-check handler: the response body and the state after the
read-and-clear (`live-server.py` lines 44-52). -/
def liveReloadCheck (st : WatchState) : String × WatchState :=
  (reloadCheckBody st.should_reload,
   if st.should_reload then { st with should_reload := false } else st)

example :
    liveReloadCheck ⟨[("a", 1)], true⟩ =
      ("\x7b\"reload\": true\x7d", ⟨[("a", 1)], false⟩) := by decide
example :
    processFile ⟨[("d/x.html", 3)], false⟩ ⟨"d/x.html", "x.html", some 5⟩ =
      ⟨[("d/x.html", 5)], true⟩ := by decide
example :
    processFile ⟨[], false⟩ ⟨"d/x.html", "x.html", some 5⟩ =
      ⟨[("d/x.html", 5)], false⟩ := by decide

/-! ### HTML injection: the three script literals

Transcribed byte-for-byte from the sources (all ASCII; `\x7b`/`\x7d` are
the brace characters, `\x27` the apostrophe).  The `live-server.py`
literal ends with the closing `</body>` tag it re-appends; the other two
scripts append `+ '</body>'` at the `replace` call site instead. -/

/-- The `reload_script` of `live-server.py` (lines 71-88), a bytes literal. -/
def reload_script : String :=
  "\n<script>\n(function() \x7b\n    let reloadInterval = setInterval(async () => \x7b\n        try \x7b\n            const response = await fetch(\x27/__live_reload_check__\x27);\n            const data = await response.json();\n            if (data.reload) \x7b\n                console.log(\x27Reloading page...\x27);\n                location.reload();\n            \x7d\n        \x7d catch (e) \x7b\n            // Server might be restarting\n        \x7d\n    \x7d, 500);\n\x7d)();\n</script>\n</body>"

/-- The `reload_script` of `preview-docs.py` (lines 45-72). -/
def reload_script_preview : String :=
  "\n<script>\n(function() \x7b\n    let lastModified = null;\n    \n    async function checkForChanges() \x7b\n        try \x7b\n            const response = await fetch(\x27/_check_reload\x27);\n            const data = await response.json();\n            \n            if (lastModified && data.modified !== lastModified) \x7b\n                console.log(\x27Changes detected, reloading...\x27);\n                window.location.reload();\n            \x7d\n            lastModified = data.modified;\n        \x7d catch (e) \x7b\n            // Server might be restarting\n        \x7d\n    \x7d\n    \n    // Check every 500ms\n    setInterval(checkForChanges, 500);\n    \n    // Also listen for focus to reload immediately when switching back\n    window.addEventListener(\x27focus\x27, checkForChanges);\n\x7d)();\n</script>\n"

/-- The `reload_script` of `serve-docs.py` (lines 45-62). -/
def reload_script_serve : String :=
  "\n<script>\n// Auto-reload functionality\n(function() \x7b\n    let lastCheck = Date.now();\n    \n    setInterval(function() \x7b\n        fetch(window.location.href, \x7b method: \x27HEAD\x27 \x7d)\n            .then(response => \x7b\n                const modified = response.headers.get(\x27Last-Modified\x27);\n                if (modified && lastCheck && Date.parse(modified) > lastCheck) \x7b\n                    location.reload();\n                \x7d\n            \x7d).catch(() => \x7b\x7d);\n    \x7d, 1000);\n\x7d)();\n</script>\n"

/-- The closing body tag the injection step looks for. -/
def body_close : String := "</body>"

/-! ### The HTML branch of `do_GET` in each script

Each model takes the bytes of the HTML file already read from disk and
returns the response headers (in emission order, `end_headers` additions
included) and the body bytes written. -/

/-- Model of `live-server.py` `do_GET`, HTML branch after a successful read
(lines 66-96): inject only when `b'</body>' in content`, then send
`Content-Type`, a `Content-Length` recomputed from the modified bytes,
and the `end_headers` cache/CORS headers. -/
def serveHtmlLive (content : List Char) : List (String × String) × List Char :=
  let content2 :=
    if containsSeq body_close.data content then
      bytesReplace body_close.data reload_script.data content
    else content
  ([("Content-Type", "text/html"),
    ("Content-Length", toString content2.length),
    ("Cache-Control", "no-store, no-cache, must-revalidate"),
    ("Access-Control-Allow-Origin", "*")],
   content2)

/-- Model of `preview-docs.py` `do_GET`, HTML branch (lines 43-81), from
the in-memory text produced by the text-mode read of line 41-42 (see
`textModeRead`/`previewGetFile` for the composed path from the file's
bytes): `content.replace('</body>', reload_script + '</body>')`
unconditionally, `Content-Length` from the encoded modified body,
`end_headers` adds the cache/CORS headers. -/
def serveHtmlPreview (content : List Char) : List (String × String) × List Char :=
  let content2 :=
    bytesReplace body_close.data (reload_script_preview.data ++ body_close.data) content
  ([("Content-Type", "text/html; charset=utf-8"),
    ("Content-Length", toString content2.length),
    ("Cache-Control", "no-store, no-cache, must-revalidate"),
    ("Access-Control-Allow-Origin", "*")],
   content2)

/-- Model of `serve-docs.py` `do_GET`, HTML branch (lines 43-71), from
the in-memory text produced by the text-mode read of line 41-42 (see
`serveDocsGetFile` for the composed path from the file's bytes):
`content.replace('</body>', reload_script + '</body>')`, then
`Content-Type`, `Last-Modified` (the current time formatted, passed in as
`now`), and the `end_headers` additions `Cache-Control` and `Expires`.
No `Content-Length` header is sent on this branch. -/
def serveHtmlServeDocs (content : List Char) (now : String) :
    List (String × String) × List Char :=
  let content2 :=
    bytesReplace body_close.data (reload_script_serve.data ++ body_close.data) content
  ([("Content-Type", "text/html; charset=utf-8"),
    ("Last-Modified", now),
    ("Cache-Control", "no-store, no-cache, must-revalidate"),
    ("Expires", "0")],
   content2)

/-! ### The text-mode file read of `preview-docs.py` and `serve-docs.py`

Unlike `live-server.py`, which reads with `open(file_path, 'rb')` and
writes the raw bytes back, `preview-docs.py` line 41 and `serve-docs.py`
line 41 read the HTML file with `open(file_path, 'r', encoding='utf-8')`
— UTF-8 text mode with universal newlines — and later write
`content.encode('utf-8')`.  The encode inverts the decode, so `List Char`
stands at once for the decoded code points and their UTF-8 bytes, and the
transformation that survives at the byte level is the universal-newline
translation; a file that is not valid UTF-8 makes the read raise
`UnicodeDecodeError` and the handler produces no normal response. -/

/-- Universal-newline translation performed by the Python text-mode read:
every `"\r\n"` pair and every lone `"\r"` becomes `"\n"`.  Fueled like
`replaceFuel` (the wrapper passes `fuel := s.length`, always sufficient)
so the definition stays kernel-evaluable. -/
def unlFuel : Nat → List Char → List Char
  | 0, s => s
  | Nat.succ _, [] => []
  | Nat.succ fuel, c :: rest =>
    if c = '\r' then
      if rest.head? = some '\n' then '\n' :: unlFuel fuel rest.tail
      else '\n' :: unlFuel fuel rest
    else c :: unlFuel fuel rest

/-- Universal-newline translation with the fuel instantiated. -/
def universalNewlines (s : List Char) : List Char := unlFuel s.length s

/-- The read `f.read()` in text mode: `decoded` is the UTF-8 decoding of
the file's bytes (`none` when the bytes are not valid UTF-8, making the
read raise `UnicodeDecodeError`, modelled by `Except.error`); a
successful read yields the universal-newline translation of the decoded
text. -/
def textModeRead (decoded : Option (List Char)) : Except Unit (List Char) :=
  match decoded with
  | none => .error ()
  | some text => .ok (universalNewlines text)

/-- The full `preview-docs.py` HTML GET on a file (lines 41-81):
text-mode read, then the injection branch; `Except.error` is the raising
`UnicodeDecodeError` path. -/
def previewGetFile (decoded : Option (List Char)) :
    Except Unit (List (String × String) × List Char) :=
  (textModeRead decoded).map serveHtmlPreview

/-- The full `serve-docs.py` HTML GET on a file (lines 41-71): text-mode
read, then the injection branch. -/
def serveDocsGetFile (decoded : Option (List Char)) (now : String) :
    Except Unit (List (String × String) × List Char) :=
  (textModeRead decoded).map (fun text => serveHtmlServeDocs text now)

example : universalNewlines "a\r\nb\rc\n".data = "a\nb\nc\n".data := by decide
example : previewGetFile none = .error () := rfl

/-! ### The scans of the other two scripts -/

/-- Python `file.startswith(".")`. -/
def hiddenName (s : String) : Bool := ".".data.isPrefixOf s.data

/-- Model of `get_last_modified_time` of `preview-docs.py` (lines 103-115): running
maximum over all non-hidden files, starting from `latest = 0`.  There is
no per-file exception handling: a `stat` error (`mtime = none`) raises
`OSError` out of the whole scan, modelled by `Except.error`. -/
def get_last_modified_time (latest : Nat) : List FileObs → Except Unit Nat
  | [] => .ok latest
  | f :: rest =>
    if hiddenName f.name then get_last_modified_time latest rest
    else
      match f.mtime with
      | none => .error ()
      | some m => get_last_modified_time (max latest m) rest

/-- One file of the `serve-docs.py` `watch_files` cycle (lines 111-122):
skip hidden and `.swp` files; a `stat` error raises (caught only by the
cycle-level `except`); on `mtime > last_check_time` advance the watermark
and touch `index.html` (recorded by the boolean). -/
def serveDocsStep (acc : Nat × Bool) (f : FileObs) : Except Unit (Nat × Bool) :=
  if hiddenName f.name || ".swp".data.isSuffixOf f.name.data then .ok acc
  else
    match f.mtime with
    | none => .error ()
    | some m => if acc.1 < m then .ok (m, true) else .ok acc

/-- One cycle of `serve-docs.py` `watch_files` (lines 107-124): the whole
walk sits in one `try`/`except: pass`, so a raising file abandons the
rest of the cycle but the updates made so far persist and the function
returns normally. -/
def serveDocsCycle (acc : Nat × Bool) : List FileObs → Nat × Bool
  | [] => acc
  | f :: rest =>
    match serveDocsStep acc f with
    | .ok acc2 => serveDocsCycle acc2 rest
    | .error _ => acc

/-! ### Startup and exit codes -/

/-- What a `main` does at startup: exit with a code, or reach serving. -/
inductive StartupOutcome where
  | exit (code : Nat)
  | serving
  deriving Repr, DecidableEq

/-- Model of `live-server.py` `main` (lines 174-220): missing `docs` directory →
`sys.exit(1)`; `OSError` from bind/serve is caught (port-in-use message
for errno 98, generic otherwise) and ends in `sys.exit(1)`. -/
def liveServerMain (docsExists : Bool) (bindErrno : Option Nat) : StartupOutcome :=
  if docsExists = false then .exit 1
  else
    match bindErrno with
    | some _ => .exit 1
    | none => .serving

/-- Model of `preview-docs.py` `__main__` + `main` (lines 145-196): missing docs
directory → `sys.exit(1)`; the `HTTPServer` bind is not wrapped in any
handler, so a bind `OSError` propagates and the interpreter exits with
status 1 (CPython's exit status for an unhandled exception). -/
def previewDocsMain (docsExists : Bool) (bindErrno : Option Nat) : StartupOutcome :=
  if docsExists = false then .exit 1
  else
    match bindErrno with
    | some _ => .exit 1
    | none => .serving

/-- Model of `serve-docs.py` `main` (lines 126-146): missing docs directory →
`sys.exit(1)`; the `HTTPServer` bind is unguarded, so a bind `OSError`
terminates the interpreter with status 1. -/
def serveDocsMain (docsExists : Bool) (bindErrno : Option Nat) : StartupOutcome :=
  if docsExists = false then .exit 1
  else
    match bindErrno with
    | some _ => .exit 1
    | none => .serving

example : (serveHtmlLive "<p>x</p>".data).2 = "<p>x</p>".data := by decide
example : get_last_modified_time 0 [⟨"d/a.html", "a.html", none⟩] = .error () := rfl

/-! ### Lemmas: the replace machinery -/

theorem pat_append_drop {pat s : List Char} (h : pat.isPrefixOf s = true) :
    pat ++ s.drop pat.length = s :=
  List.prefix_iff_eq_append.mp (List.isPrefixOf_iff_prefix.mp h)

theorem length_of_prefix {pat s : List Char} (h : pat.isPrefixOf s = true) :
    s.length = pat.length + (s.drop pat.length).length := by
  conv_lhs => rw [← pat_append_drop h]
  simp

theorem replaceFuel_not_contains (pat rep : List Char) :
    ∀ (n : Nat) (s : List Char), containsSeq pat s = false →
      replaceFuel pat rep n s = s := by
  intro n
  induction n with
  | zero => intro s _; rfl
  | succ n ih =>
    intro s h
    match s with
    | [] => rfl
    | c :: rest =>
      simp only [containsSeq, Bool.or_eq_false_iff] at h
      have hg : ¬(pat ≠ [] ∧ pat.isPrefixOf (c :: rest)) := by
        intro hc
        rw [hc.2] at h
        exact absurd h.1 (by simp)
      simp only [replaceFuel, if_neg hg]
      exact congrArg (c :: ·) (ih rest h.2)

theorem countFuel_not_contains (pat : List Char) :
    ∀ (n : Nat) (s : List Char), containsSeq pat s = false →
      countFuel pat n s = 0 := by
  intro n
  induction n with
  | zero => intro s _; rfl
  | succ n ih =>
    intro s h
    match s with
    | [] => rfl
    | c :: rest =>
      simp only [containsSeq, Bool.or_eq_false_iff] at h
      have hg : ¬(pat ≠ [] ∧ pat.isPrefixOf (c :: rest)) := by
        intro hc
        rw [hc.2] at h
        exact absurd h.1 (by simp)
      simp only [countFuel, if_neg hg]
      exact ih rest h.2

theorem contains_of_countFuel_pos (pat : List Char) (n : Nat) (s : List Char)
    (h : countFuel pat n s ≠ 0) : containsSeq pat s = true := by
  by_contra hc
  exact h (countFuel_not_contains pat n s (by simpa using hc))

/-- Length accounting for one replace pass: each of the counted
occurrences trades `pat.length` for `rep.length`. -/
theorem replaceFuel_length (pat rep : List Char) :
    ∀ (n : Nat) (s : List Char),
      (replaceFuel pat rep n s).length + countFuel pat n s * pat.length =
        s.length + countFuel pat n s * rep.length := by
  intro n
  induction n with
  | zero => intro s; simp [replaceFuel, countFuel]
  | succ n ih =>
    intro s
    match s with
    | [] => simp [replaceFuel, countFuel]
    | c :: rest =>
      by_cases hg : pat ≠ [] ∧ pat.isPrefixOf (c :: rest)
      · have hdrop := length_of_prefix hg.2
        have ih' := ih ((c :: rest).drop pat.length)
        simp only [replaceFuel, countFuel, if_pos hg, List.length_append,
          Nat.add_mul, Nat.one_mul]
        linarith
      · have ih' := ih rest
        simp only [replaceFuel, countFuel, if_neg hg, List.length_cons]
        linarith

theorem splitFuel_ne_nil (pat : List Char) :
    ∀ (n : Nat) (s : List Char), splitFuel pat n s ≠ [] := by
  intro n
  match n with
  | 0 => intro s; simp [splitFuel]
  | Nat.succ n =>
    intro s
    match s with
    | [] => simp [splitFuel]
    | c :: rest =>
      by_cases hg : pat ≠ [] ∧ pat.isPrefixOf (c :: rest)
      · simp only [splitFuel, if_pos hg]
        simp
      · simp only [splitFuel, if_neg hg]
        cases splitFuel pat n rest <;> simp

/-- One replace pass yields the segments interleaved with the
replacement. -/
theorem replaceFuel_eq_joinWith (pat rep : List Char) :
    ∀ (n : Nat) (s : List Char),
      replaceFuel pat rep n s = joinWith rep (splitFuel pat n s) := by
  intro n
  induction n with
  | zero => intro s; rfl
  | succ n ih =>
    intro s
    match s with
    | [] => rfl
    | c :: rest =>
      by_cases hg : pat ≠ [] ∧ pat.isPrefixOf (c :: rest)
      · simp only [replaceFuel, splitFuel, if_pos hg]
        rcases hsplit : splitFuel pat n ((c :: rest).drop pat.length) with
          _ | ⟨x, xs⟩
        · exact absurd hsplit (splitFuel_ne_nil pat n _)
        · rw [ih, hsplit]
          simp [joinWith]
      · simp only [replaceFuel, splitFuel, if_neg hg]
        rcases hsplit : splitFuel pat n rest with _ | ⟨seg, segs⟩
        · exact absurd hsplit (splitFuel_ne_nil pat n rest)
        · rw [ih, hsplit]
          cases segs <;> simp [joinWith]

/-- The segments interleaved with the pattern itself reassemble the
input: `splitFuel` loses nothing. -/
theorem joinWith_pat_splitFuel (pat : List Char) :
    ∀ (n : Nat) (s : List Char),
      joinWith pat (splitFuel pat n s) = s := by
  intro n
  induction n with
  | zero => intro s; rfl
  | succ n ih =>
    intro s
    match s with
    | [] => rfl
    | c :: rest =>
      by_cases hg : pat ≠ [] ∧ pat.isPrefixOf (c :: rest)
      · simp only [splitFuel, if_pos hg]
        rcases hsplit : splitFuel pat n ((c :: rest).drop pat.length) with
          _ | ⟨x, xs⟩
        · exact absurd hsplit (splitFuel_ne_nil pat n _)
        · have := ih ((c :: rest).drop pat.length)
          rw [hsplit] at this
          calc joinWith pat ([] :: x :: xs)
              = pat ++ joinWith pat (x :: xs) := by simp [joinWith]
            _ = pat ++ (c :: rest).drop pat.length := by rw [this]
            _ = c :: rest := pat_append_drop hg.2
      · simp only [splitFuel, if_neg hg]
        rcases hsplit : splitFuel pat n rest with _ | ⟨seg, segs⟩
        · exact absurd hsplit (splitFuel_ne_nil pat n rest)
        · have := ih rest
          rw [hsplit] at this
          cases segs with
          | nil => simpa [joinWith] using congrArg (c :: ·) this
          | cons t ts =>
            calc joinWith pat ((c :: seg) :: t :: ts)
                = c :: (seg ++ pat ++ joinWith pat (t :: ts)) := by
                  simp [joinWith]
              _ = c :: joinWith pat (seg :: t :: ts) := by simp [joinWith]
              _ = c :: rest := by rw [this]

/-- There is one more segment than there are occurrences. -/
theorem splitFuel_length (pat : List Char) :
    ∀ (n : Nat) (s : List Char),
      (splitFuel pat n s).length = countFuel pat n s + 1 := by
  intro n
  induction n with
  | zero => intro s; rfl
  | succ n ih =>
    intro s
    match s with
    | [] => rfl
    | c :: rest =>
      by_cases hg : pat ≠ [] ∧ pat.isPrefixOf (c :: rest)
      · simp only [splitFuel, countFuel, if_pos hg, List.length_cons, ih]
        omega
      · simp only [splitFuel, countFuel, if_neg hg]
        rcases hsplit : splitFuel pat n rest with _ | ⟨seg, segs⟩
        · exact absurd hsplit (splitFuel_ne_nil pat n rest)
        · have := ih rest
          rw [hsplit] at this
          simpa using this

/-! ### Lemmas: universal-newline translation -/

theorem unlFuel_congr :
    ∀ (n m : Nat) (s : List Char), s.length ≤ n → s.length ≤ m →
      unlFuel n s = unlFuel m s := by
  intro n
  induction n with
  | zero =>
    intro m s hn _
    rcases s with _ | ⟨c, rest⟩
    · cases m <;> rfl
    · simp at hn
  | succ n ih =>
    intro m s hn hm
    rcases s with _ | ⟨c, rest⟩
    · cases m <;> rfl
    · rcases m with _ | m
      · simp at hm
      · simp only [unlFuel]
        have hr : rest.length ≤ n := by
          simp only [List.length_cons] at hn
          omega
        have hr' : rest.length ≤ m := by
          simp only [List.length_cons] at hm
          omega
        have hts : rest.tail.length ≤ rest.length := by
          cases rest <;> simp
        by_cases hc : c = '\r'
        · rw [if_pos hc, if_pos hc]
          by_cases hh : rest.head? = some '\n'
          · rw [if_pos hh, if_pos hh,
              ih m rest.tail (le_trans hts hr) (le_trans hts hr')]
          · rw [if_neg hh, if_neg hh, ih m rest hr hr']
        · rw [if_neg hc, if_neg hc, ih m rest hr hr']

/-- The one-step unfolding of `universalNewlines`. -/
theorem unl_cons (c : Char) (rest : List Char) :
    universalNewlines (c :: rest) =
      if c = '\r' then
        if rest.head? = some '\n' then '\n' :: universalNewlines rest.tail
        else '\n' :: universalNewlines rest
      else c :: universalNewlines rest := by
  show unlFuel (rest.length + 1) (c :: rest) = _
  simp only [unlFuel]
  have hts : rest.tail.length ≤ rest.length := by
    cases rest <;> simp
  by_cases hc : c = '\r'
  · rw [if_pos hc, if_pos hc]
    by_cases hh : rest.head? = some '\n'
    · rw [if_pos hh, if_pos hh,
        unlFuel_congr rest.length rest.tail.length rest.tail hts (le_refl _)]
      rfl
    · rw [if_neg hh, if_neg hh]
      rfl
  · rw [if_neg hc, if_neg hc]
    rfl

/-- A carriage-return-free text passes through the text-mode read
unchanged. -/
theorem universalNewlines_no_cr :
    ∀ s : List Char, ('\r' : Char) ∉ s → universalNewlines s = s := by
  intro s
  induction s with
  | nil => intro _; rfl
  | cons c rest ih =>
    intro h
    have hc : c ≠ '\r' := by
      intro he
      exact h (by simp [he])
    rw [unl_cons, if_neg hc, ih fun hm => h (List.mem_cons_of_mem c hm)]

/-- A pattern free of line feeds that prefixes the translated text
already prefixes the original text: translation only introduces `'\n'`
characters, never removes anything else. -/
theorem isPrefixOf_of_unl :
    ∀ (k : Nat) (s : List Char), s.length ≤ k →
      ∀ pat : List Char, ('\n' : Char) ∉ pat →
        pat.isPrefixOf (universalNewlines s) = true →
        pat.isPrefixOf s = true := by
  intro k
  induction k with
  | zero =>
    intro s hs pat _ hp
    rcases s with _ | ⟨c, rest⟩
    · exact hp
    · simp at hs
  | succ k ih =>
    intro s hs pat hn hp
    rcases s with _ | ⟨c, rest⟩
    · exact hp
    · rcases pat with _ | ⟨p, pt⟩
      · rfl
      · rw [unl_cons] at hp
        have hrest : rest.length ≤ k := by
          simp only [List.length_cons] at hs
          omega
        by_cases hc : c = '\r'
        · rw [if_pos hc] at hp
          by_cases hh : rest.head? = some '\n'
          · rw [if_pos hh] at hp
            simp only [List.isPrefixOf, Bool.and_eq_true, beq_iff_eq] at hp
            exact absurd (by simp [hp.1]) hn
          · rw [if_neg hh] at hp
            simp only [List.isPrefixOf, Bool.and_eq_true, beq_iff_eq] at hp
            exact absurd (by simp [hp.1]) hn
        · rw [if_neg hc] at hp
          simp only [List.isPrefixOf, Bool.and_eq_true, beq_iff_eq] at hp ⊢
          exact ⟨hp.1, ih rest hrest pt
            (fun hm => hn (List.mem_cons_of_mem p hm)) hp.2⟩

/-- A pattern free of line feeds that is absent from a text is still
absent after universal-newline translation. -/
theorem contains_unl_of_not_contains :
    ∀ (k : Nat) (s : List Char), s.length ≤ k →
      ∀ pat : List Char, pat ≠ [] → ('\n' : Char) ∉ pat →
        containsSeq pat s = false →
        containsSeq pat (universalNewlines s) = false := by
  intro k
  induction k with
  | zero =>
    intro s hs pat _ _ h
    rcases s with _ | ⟨c, rest⟩
    · exact h
    · simp at hs
  | succ k ih =>
    intro s hs pat hne hn h
    have hnp : ∀ l : List Char, pat.isPrefixOf ('\n' :: l) = false := by
      intro l
      rcases pat with _ | ⟨p, pt⟩
      · exact absurd rfl hne
      · by_cases hpn : p = '\n'
        · exact absurd (by simp [hpn]) hn
        · simp [List.isPrefixOf, hpn]
    rcases s with _ | ⟨c, rest⟩
    · exact h
    · simp only [containsSeq, Bool.or_eq_false_iff] at h
      have hrest : rest.length ≤ k := by
        simp only [List.length_cons] at hs
        omega
      rw [unl_cons]
      by_cases hc : c = '\r'
      · rw [if_pos hc]
        by_cases hh : rest.head? = some '\n'
        · rw [if_pos hh]
          have hrtail : containsSeq pat rest.tail = false := by
            rcases rest with _ | ⟨c2, rest2⟩
            · simp at hh
            · have hc2 : c2 = '\n' := by
                simp only [List.head?_cons, Option.some.injEq] at hh
                exact hh
              have := h.2
              simp only [containsSeq, Bool.or_eq_false_iff] at this
              exact this.2
          have htlen : rest.tail.length ≤ k :=
            le_trans (by cases rest <;> simp) hrest
          simp only [containsSeq, Bool.or_eq_false_iff]
          exact ⟨hnp _, ih rest.tail htlen pat hne hn hrtail⟩
        · rw [if_neg hh]
          simp only [containsSeq, Bool.or_eq_false_iff]
          exact ⟨hnp _, ih rest hrest pat hne hn h.2⟩
      · rw [if_neg hc]
        simp only [containsSeq, Bool.or_eq_false_iff]
        refine ⟨?_, ih rest hrest pat hne hn h.2⟩
        by_cases hpf : pat.isPrefixOf (c :: universalNewlines rest) = true
        · exfalso
          rcases pat with _ | ⟨p, pt⟩
          · exact absurd rfl hne
          · simp only [List.isPrefixOf, Bool.and_eq_true, beq_iff_eq] at hpf
            have hpt : pt.isPrefixOf rest = true :=
              isPrefixOf_of_unl k rest hrest pt
                (fun hm => hn (List.mem_cons_of_mem p hm)) hpf.2
            have : (p :: pt).isPrefixOf (c :: rest) = true := by
              simp only [List.isPrefixOf, Bool.and_eq_true, beq_iff_eq]
              exact ⟨hpf.1, hpt⟩
            rw [this] at h
            exact absurd h.1 (by simp)
        · exact Bool.eq_false_iff.mpr hpf

/-- Specialization to the closing body tag, which contains no line
feed. -/
theorem contains_unl_body_close (content : List Char)
    (h : containsSeq body_close.data content = false) :
    containsSeq body_close.data (universalNewlines content) = false :=
  contains_unl_of_not_contains content.length content (le_refl _)
    body_close.data (by decide) (by decide) h

/-! ### Lemmas: the change detector -/

theorem lookup_setMtime_self (l : List (String × Nat)) (p : String) (m : Nat) :
    lookupMtime (setMtime l p m) p = some m := by
  induction l with
  | nil => simp [setMtime, lookupMtime]
  | cons hd tl ih =>
    by_cases hq : hd.1 = p
    · simp [setMtime, lookupMtime, hq]
    · simp [setMtime, lookupMtime, hq, ih]

theorem lookup_setMtime_ne (l : List (String × Nat)) (p q : String) (m : Nat)
    (h : q ≠ p) : lookupMtime (setMtime l p m) q = lookupMtime l q := by
  induction l with
  | nil =>
    simp only [setMtime, lookupMtime]
    rw [if_neg fun he : p = q => h he.symm]
  | cons hd tl ih =>
    obtain ⟨a, v⟩ := hd
    by_cases ha : a = p
    · rw [show setMtime ((a, v) :: tl) p m = (a, m) :: tl by simp [setMtime, ha]]
      have haq : ¬a = q := fun he => h (he.symm.trans ha)
      simp [lookupMtime, haq]
    · rw [show setMtime ((a, v) :: tl) p m = (a, v) :: setMtime tl p m by
        simp [setMtime, ha]]
      by_cases haq : a = q
      · simp [lookupMtime, haq]
      · simp [lookupMtime, haq, ih]

/-- A scan step never clears the Reload Signal. -/
theorem processFile_signal_mono (st : WatchState) (f : FileObs)
    (h : st.should_reload = true) : (processFile st f).should_reload = true := by
  unfold processFile
  split
  · match f.mtime with
    | none => exact h
    | some m =>
      simp only
      split
      · exact h
      · split <;> simp [h]
  · exact h

/-- A scan step either leaves the signal alone or raises it. -/
theorem processFile_signal_shape (st : WatchState) (f : FileObs) :
    (processFile st f).should_reload = st.should_reload ∨
      (processFile st f).should_reload = true := by
  unfold processFile
  split
  · match f.mtime with
    | none => exact Or.inl rfl
    | some m =>
      simp only
      split
      · exact Or.inl rfl
      · split
        · exact Or.inr rfl
        · exact Or.inl rfl
  · exact Or.inl rfl

/-- A scan step touches no snapshot entry other than the scanned path. -/
theorem processFile_lookup_ne (st : WatchState) (f : FileObs) (p : String)
    (h : f.path ≠ p) :
    lookupMtime (processFile st f).file_mtimes p =
      lookupMtime st.file_mtimes p := by
  unfold processFile
  split
  · match f.mtime with
    | none => rfl
    | some m =>
      simp only
      split
      · exact lookup_setMtime_ne _ _ _ _ fun he => h he.symm
      · split <;> exact lookup_setMtime_ne _ _ _ _ fun he => h he.symm
  · rfl

theorem runCycle_append (st : WatchState) (l1 l2 : List FileObs) :
    runCycle st (l1 ++ l2) = runCycle (runCycle st l1) l2 :=
  List.foldl_append ..

theorem runCycle_signal_mono (st : WatchState) (fs : List FileObs)
    (h : st.should_reload = true) : (runCycle st fs).should_reload = true := by
  induction fs generalizing st with
  | nil => exact h
  | cons f rest ih => exact ih _ (processFile_signal_mono st f h)

theorem runCycle_lookup_frame (st : WatchState) (fs : List FileObs) (p : String)
    (h : ∀ g ∈ fs, g.path ≠ p) :
    lookupMtime (runCycle st fs).file_mtimes p = lookupMtime st.file_mtimes p := by
  induction fs generalizing st with
  | nil => rfl
  | cons f rest ih =>
    rw [runCycle, List.foldl_cons, ← runCycle, ih _ fun g hg => h g (by simp [hg])]
    exact processFile_lookup_ne st f p (h f (by simp))

/-- Scanning files none of which is in the snapshot records them but
leaves a clear signal clear. -/
theorem runCycle_fresh_no_signal (fs : List FileObs) :
    ∀ st : WatchState, st.should_reload = false →
      (∀ g ∈ fs, lookupMtime st.file_mtimes g.path = none) →
      List.Pairwise (fun a b : FileObs => a.path ≠ b.path) fs →
      (runCycle st fs).should_reload = false := by
  induction fs with
  | nil => intro st h _ _; exact h
  | cons f rest ih =>
    intro st h hfresh hpw
    rw [runCycle, List.foldl_cons, ← runCycle]
    have hstep : (processFile st f).should_reload = false ∧
        (∀ g ∈ rest, lookupMtime (processFile st f).file_mtimes g.path = none) := by
      constructor
      · unfold processFile
        split
        · match f.mtime with
          | none => exact h
          | some m =>
            simp only
            rw [hfresh f (by simp)]
            exact h
        · exact h
      · intro g hg
        rw [processFile_lookup_ne st f g.path ((List.pairwise_cons.mp hpw).1 g hg)]
        exact hfresh g (by simp [hg])
    exact ih _ hstep.1 hstep.2 (List.pairwise_cons.mp hpw).2

/-! ### The claims -/

/-- Claim C1: in the boolean-flag variant (`live-server.py`), a poll of
`/__live_reload_check__` that observes the Reload Signal set reports
`{"reload": true}` and clears the signal, so the immediately following
poll (with no detector write in between) reports `{"reload": false}`. -/
theorem c1_read_and_clear (st : WatchState) (h : st.should_reload = true) :
    (liveReloadCheck st).1 = "\x7b\"reload\": true\x7d" ∧
    (liveReloadCheck st).2.should_reload = false ∧
    (liveReloadCheck (liveReloadCheck st).2).1 = "\x7b\"reload\": false\x7d" := by
  refine ⟨?_, ?_, ?_⟩ <;> simp [liveReloadCheck, reloadCheckBody, h]

theorem c1_witness :
    (⟨[("docs/index.html", 3)], true⟩ : WatchState).should_reload = true ∧
    ((liveReloadCheck ⟨[("docs/index.html", 3)], true⟩).1 =
        "\x7b\"reload\": true\x7d" ∧
      (liveReloadCheck ⟨[("docs/index.html", 3)], true⟩).2.should_reload = false ∧
      (liveReloadCheck (liveReloadCheck
        ⟨[("docs/index.html", 3)], true⟩).2).1 = "\x7b\"reload\": false\x7d") :=
  ⟨rfl, c1_read_and_clear ⟨[("docs/index.html", 3)], true⟩ rfl⟩

/-- Claim C2: a watched file recorded in the snapshot whose modification
time strictly increases makes one detector cycle set the Reload Signal
and update its snapshot entry to the new time (the file's path occurring
once in the walk, as `os.walk` lists each file once). -/
theorem c2_modified_file_sets_signal (st : WatchState) (pre post : List FileObs)
    (f : FileObs) (m prev : Nat)
    (hext : watchedExt f.name = true)
    (hm : f.mtime = some m)
    (hprev : lookupMtime st.file_mtimes f.path = some prev)
    (hlt : prev < m)
    (hpre : ∀ g ∈ pre, g.path ≠ f.path)
    (hpost : ∀ g ∈ post, g.path ≠ f.path) :
    (runCycle st (pre ++ f :: post)).should_reload = true ∧
    lookupMtime (runCycle st (pre ++ f :: post)).file_mtimes f.path = some m := by
  rw [runCycle_append]
  have hcons : runCycle (runCycle st pre) (f :: post) =
      runCycle (processFile (runCycle st pre) f) post := rfl
  rw [hcons]
  have hpre' : lookupMtime (runCycle st pre).file_mtimes f.path = some prev := by
    rw [runCycle_lookup_frame st pre f.path fun g hg => hpre g hg]
    exact hprev
  have hstep : (processFile (runCycle st pre) f).should_reload = true ∧
      lookupMtime (processFile (runCycle st pre) f).file_mtimes f.path = some m := by
    simp only [processFile, hext, hm, hpre', if_pos hlt, if_true]
    exact ⟨trivial, lookup_setMtime_self _ _ _⟩
  exact ⟨runCycle_signal_mono _ post hstep.1,
    (runCycle_lookup_frame _ post f.path fun g hg => hpost g hg).trans hstep.2⟩

theorem c2_witness :
    watchedExt "index.html" = true ∧
    (⟨"docs/index.html", "index.html", some 7⟩ : FileObs).mtime = some 7 ∧
    lookupMtime [("docs/index.html", 5)] "docs/index.html" = some 5 ∧
    5 < 7 ∧
    ((runCycle ⟨[("docs/index.html", 5)], false⟩
        ([] ++ ⟨"docs/index.html", "index.html", some 7⟩ :: [])).should_reload = true ∧
      lookupMtime (runCycle ⟨[("docs/index.html", 5)], false⟩
        ([] ++ ⟨"docs/index.html", "index.html", some 7⟩ :: [])).file_mtimes
          "docs/index.html" = some 7) :=
  ⟨by decide, rfl, by decide, by decide,
    c2_modified_file_sets_signal ⟨[("docs/index.html", 5)], false⟩ [] []
      ⟨"docs/index.html", "index.html", some 7⟩ 7 5 (by decide) rfl (by decide)
      (by decide) (by simp) (by simp)⟩

/-- Claim C3: a file first encountered by a cycle (no snapshot entry) has
its modification time recorded but does not raise the Reload Signal; a
whole first scan from the startup state (`file_mtimes = {}`,
`should_reload = False`) leaves the signal clear. -/
theorem c3_first_encounter :
    (∀ (st : WatchState) (f : FileObs) (m : Nat),
        watchedExt f.name = true → f.mtime = some m →
        lookupMtime st.file_mtimes f.path = none →
        (processFile st f).should_reload = st.should_reload ∧
        (processFile st f).file_mtimes = setMtime st.file_mtimes f.path m) ∧
    (∀ fs : List FileObs,
        List.Pairwise (fun a b : FileObs => a.path ≠ b.path) fs →
        (runCycle ⟨[], false⟩ fs).should_reload = false) := by
  constructor
  · intro st f m hext hm hl
    simp only [processFile, hext, hm, hl, if_true]
    exact ⟨trivial, trivial⟩
  · intro fs hpw
    exact runCycle_fresh_no_signal fs ⟨[], false⟩ rfl (fun g _ => rfl) hpw

theorem c3_witness :
    watchedExt "new.html" = true ∧
    ((processFile ⟨[], false⟩ ⟨"docs/new.html", "new.html", some 9⟩).should_reload =
        (⟨[], false⟩ : WatchState).should_reload ∧
      (processFile ⟨[], false⟩ ⟨"docs/new.html", "new.html", some 9⟩).file_mtimes =
        setMtime [] "docs/new.html" 9) ∧
    (runCycle ⟨[], false⟩ [⟨"docs/new.html", "new.html", some 9⟩]).should_reload =
      false :=
  ⟨by decide,
    c3_first_encounter.1 ⟨[], false⟩ ⟨"docs/new.html", "new.html", some 9⟩ 9
      (by decide) rfl rfl,
    c3_first_encounter.2 [⟨"docs/new.html", "new.html", some 9⟩]
      (by simp)⟩

/-- Claim C8: with the watch directory absent every variant exits with
code 1, and a bind failure at startup likewise ends with exit status 1
(`live-server.py` catches the `OSError` and calls `sys.exit(1)`; the
other two leave it unhandled and the interpreter exits with status 1). -/
theorem c8_exit_codes :
    (∀ be : Option Nat,
        liveServerMain false be = .exit 1 ∧
        previewDocsMain false be = .exit 1 ∧
        serveDocsMain false be = .exit 1) ∧
    (∀ e : Nat,
        liveServerMain true (some e) = .exit 1 ∧
        previewDocsMain true (some e) = .exit 1 ∧
        serveDocsMain true (some e) = .exit 1) :=
  ⟨fun _ => ⟨rfl, rfl, rfl⟩, fun _ => ⟨rfl, rfl, rfl⟩⟩

/-- Claim C9: a detector cycle only ever raises the boolean Reload
Signal (a set signal stays set, and a single step either leaves the
signal unchanged or sets it); the poll handler is what clears it, and
handling a poll never modifies the File Snapshot. -/
theorem c9_frame_conditions :
    (∀ (st : WatchState) (fs : List FileObs), st.should_reload = true →
        (runCycle st fs).should_reload = true) ∧
    (∀ (st : WatchState) (f : FileObs),
        (processFile st f).should_reload = st.should_reload ∨
        (processFile st f).should_reload = true) ∧
    (∀ st : WatchState, (liveReloadCheck st).2.file_mtimes = st.file_mtimes) ∧
    (∀ st : WatchState, st.should_reload = true →
        (liveReloadCheck st).2.should_reload = false) := by
  refine ⟨fun st fs h => runCycle_signal_mono st fs h,
    fun st f => processFile_signal_shape st f,
    fun st => ?_, fun st h => by simp [liveReloadCheck, h]⟩
  unfold liveReloadCheck
  split <;> rfl

theorem c9_witness :
    (runCycle ⟨[("a", 1)], true⟩ []).should_reload = true ∧
    ((processFile ⟨[("a", 1)], true⟩ ⟨"a", "a", none⟩).should_reload =
        (⟨[("a", 1)], true⟩ : WatchState).should_reload ∨
      (processFile ⟨[("a", 1)], true⟩ ⟨"a", "a", none⟩).should_reload = true) ∧
    (liveReloadCheck ⟨[("a", 1)], true⟩).2.file_mtimes = [("a", 1)] ∧
    (liveReloadCheck ⟨[("a", 1)], true⟩).2.should_reload = false :=
  ⟨c9_frame_conditions.1 ⟨[("a", 1)], true⟩ [] rfl,
    c9_frame_conditions.2.1 ⟨[("a", 1)], true⟩ ⟨"a", "a", none⟩,
    c9_frame_conditions.2.2.1 ⟨[("a", 1)], true⟩,
    c9_frame_conditions.2.2.2 ⟨[("a", 1)], true⟩ rfl⟩

/-- Claim C7 counterexample: `get_last_modified_time` of
`preview-docs.py` has no per-file exception handling, so a stat error on
an eligible (non-hidden) file makes the whole scan raise instead of
continuing with the next file — here the later healthy `index.html` is
never reached. -/
theorem c7_counterexample :
    hiddenName "gone.html" = false ∧
    get_last_modified_time 0
      [⟨"docs/gone.html", "gone.html", none⟩,
       ⟨"docs/index.html", "index.html", some 5⟩] = .error () :=
  ⟨rfl, rfl⟩

/-- Claim C7 as amended: in `live-server.py` a per-file stat error is
swallowed (`except OSError: pass`) leaving the state untouched and the
cycle continues with the remaining files, and a cycle whose walk raises
is caught by the `except Exception` arm, which keeps the state, sleeps
1 s and lets the loop continue; in `serve-docs.py` a per-file stat error
abandons the rest of that cycle via the cycle-level bare `except` but
returns normally.  (`preview-docs.py` has no such handling — see the
counterexample.) -/
theorem c7_amended :
    (∀ (st : WatchState) (f : FileObs), f.mtime = none →
        processFile st f = st) ∧
    (∀ (st : WatchState) (pre post : List FileObs) (f : FileObs),
        f.mtime = none →
        runCycle st (pre ++ f :: post) = runCycle st (pre ++ post)) ∧
    (∀ (st : WatchState) (obs : List FileObs),
        loopStep st (.raised obs) = (runCycle st obs, 1000)) ∧
    (∀ (acc : Nat × Bool) (f : FileObs) (rest : List FileObs),
        (hiddenName f.name || ".swp".data.isSuffixOf f.name.data) = false →
        f.mtime = none →
        serveDocsCycle acc (f :: rest) = acc) := by
  have hskip : ∀ (st : WatchState) (f : FileObs), f.mtime = none →
      processFile st f = st := by
    intro st f hm
    simp only [processFile, hm]
    split <;> rfl
  refine ⟨hskip, ?_, fun st obs => rfl, ?_⟩
  · intro st pre post f hm
    rw [runCycle_append, runCycle_append]
    have : runCycle (runCycle st pre) (f :: post) =
        runCycle (processFile (runCycle st pre) f) post := rfl
    rw [this, hskip _ f hm]
  · intro acc f rest hname hm
    simp only [serveDocsCycle, serveDocsStep, hname, hm]
    rfl

theorem c7_witness :
    processFile ⟨[("docs/a.md", 2)], false⟩ ⟨"docs/a.md", "a.md", none⟩ =
      ⟨[("docs/a.md", 2)], false⟩ ∧
    runCycle ⟨[("docs/a.md", 2)], false⟩
        ([] ++ ⟨"docs/a.md", "a.md", none⟩ :: []) =
      runCycle ⟨[("docs/a.md", 2)], false⟩ ([] ++ []) ∧
    loopStep ⟨[("docs/a.md", 2)], false⟩ (.raised []) =
      (runCycle ⟨[("docs/a.md", 2)], false⟩ [], 1000) ∧
    serveDocsCycle (3, false) [⟨"docs/a.md", "a.md", none⟩] = (3, false) :=
  ⟨c7_amended.1 ⟨[("docs/a.md", 2)], false⟩ ⟨"docs/a.md", "a.md", none⟩ rfl,
    c7_amended.2.1 ⟨[("docs/a.md", 2)], false⟩ [] [] ⟨"docs/a.md", "a.md", none⟩ rfl,
    c7_amended.2.2.1 ⟨[("docs/a.md", 2)], false⟩ [],
    c7_amended.2.2.2 (3, false) ⟨"docs/a.md", "a.md", none⟩ [] (by decide) rfl⟩

/-- Claim C4: on HTML containing exactly one closing body tag, the
injected output is exactly one script longer than the input — the length
property the spec calls idempotence of the injection.  For
`live-server.py` the replacement re-appends the tag, so the net growth is
the script literal minus the tag it restores; for `preview-docs.py` the
tag is appended at the call site and the growth is the whole literal. -/
theorem c4_injection_length (content : List Char)
    (h : bytesCount body_close.data content = 1) :
    (serveHtmlLive content).2.length + body_close.data.length =
      content.length + reload_script.data.length ∧
    (serveHtmlPreview content).2.length =
      content.length + reload_script_preview.data.length := by
  have hpos : countFuel body_close.data content.length content ≠ 0 := by
    unfold bytesCount at h
    omega
  have hcontains : containsSeq body_close.data content = true :=
    contains_of_countFuel_pos _ _ _ hpos
  have hcount : countFuel body_close.data content.length content = 1 := h
  constructor
  · have hlen := replaceFuel_length body_close.data reload_script.data
      content.length content
    rw [hcount, one_mul, one_mul] at hlen
    simpa [serveHtmlLive, hcontains, bytesReplace] using hlen
  · have hlen := replaceFuel_length body_close.data
      (reload_script_preview.data ++ body_close.data) content.length content
    rw [hcount, one_mul, one_mul, List.length_append] at hlen
    have hshape : (serveHtmlPreview content).2.length =
        (replaceFuel body_close.data
          (reload_script_preview.data ++ body_close.data)
          content.length content).length := rfl
    rw [hshape]
    omega

/-- A one-tag input for the C4 witness. -/
def c4_input : List Char := "<html><body>hi</body></html>".data

theorem c4_witness :
    bytesCount body_close.data c4_input = 1 ∧
    ((serveHtmlLive c4_input).2.length + body_close.data.length =
        c4_input.length + reload_script.data.length ∧
      (serveHtmlPreview c4_input).2.length =
        c4_input.length + reload_script_preview.data.length) :=
  ⟨by decide, c4_injection_length c4_input (by decide)⟩

/-- Claim C5 counterexample: `preview-docs.py` and `serve-docs.py` read
HTML in UTF-8 text mode with universal newlines and re-encode, so the
valid-UTF-8 CRLF file `"<p>hi\r\n</p>"` — which contains no closing body
tag — is served as `"<p>hi\n</p>"`, one byte shorter and not
byte-identical to the source file. -/
theorem c5_counterexample :
    containsSeq body_close.data "<p>hi\r\n</p>".data = false ∧
    (previewGetFile (some "<p>hi\r\n</p>".data)).map (fun r => r.2) =
      .ok "<p>hi\n</p>".data ∧
    (∀ now : String,
      (serveDocsGetFile (some "<p>hi\r\n</p>".data) now).map (fun r => r.2) =
        .ok "<p>hi\n</p>".data) ∧
    "<p>hi\n</p>".data ≠ "<p>hi\r\n</p>".data :=
  ⟨by decide, rfl, fun _ => rfl, by decide⟩

/-- Claim C5 as amended: HTML with no closing body tag is served
byte-identical to the source file by `live-server.py`, which reads and
writes raw bytes.  `preview-docs.py` and `serve-docs.py` read the file in
UTF-8 text mode (universal newlines) and re-encode, so with no closing
body tag they serve the file's bytes with every `"\r\n"` and every lone
`"\r"` replaced by `"\n"` — byte-identical exactly when the valid-UTF-8
file contains no carriage return — and a file that is not valid UTF-8
makes the read raise `UnicodeDecodeError`, producing no normal
response. -/
theorem c5_no_tag_amended (content : List Char)
    (h : containsSeq body_close.data content = false) :
    (serveHtmlLive content).2 = content ∧
    (previewGetFile (some content)).map (fun r => r.2) =
      .ok (universalNewlines content) ∧
    (∀ now : String,
      (serveDocsGetFile (some content) now).map (fun r => r.2) =
        .ok (universalNewlines content)) ∧
    (('\r' : Char) ∉ content → universalNewlines content = content) ∧
    previewGetFile none = .error () ∧
    (∀ now : String, serveDocsGetFile none now = .error ()) := by
  have hU := contains_unl_body_close content h
  refine ⟨?_, ?_, fun now => ?_, fun hcr => universalNewlines_no_cr content hcr,
    rfl, fun now => rfl⟩
  · simp [serveHtmlLive, h]
  · exact congrArg Except.ok (replaceFuel_not_contains _ _ _ _ hU)
  · exact congrArg Except.ok (replaceFuel_not_contains _ _ _ _ hU)

theorem c5_amended_witness :
    containsSeq body_close.data "<p>no tag here</p>".data = false ∧
    ((serveHtmlLive "<p>no tag here</p>".data).2 = "<p>no tag here</p>".data ∧
      (previewGetFile (some "<p>no tag here</p>".data)).map (fun r => r.2) =
        .ok (universalNewlines "<p>no tag here</p>".data) ∧
      (∀ now : String,
        (serveDocsGetFile (some "<p>no tag here</p>".data) now).map
          (fun r => r.2) = .ok (universalNewlines "<p>no tag here</p>".data)) ∧
      (('\r' : Char) ∉ "<p>no tag here</p>".data →
        universalNewlines "<p>no tag here</p>".data = "<p>no tag here</p>".data) ∧
      previewGetFile none = .error () ∧
      (∀ now : String, serveDocsGetFile none now = .error ())) :=
  ⟨by decide, c5_no_tag_amended "<p>no tag here</p>".data (by decide)⟩

/-- Claim C6 counterexample: the `serve-docs.py` HTML branch injects the
script (the input holds a closing body tag) but its response sends
`Content-Type`, `Last-Modified`, `Cache-Control` and `Expires` only —
no `Content-Length` header at all, refuting the claim for this variant. -/
theorem c6_counterexample :
    containsSeq body_close.data "<body>x</body>".data = true ∧
    ((serveHtmlServeDocs "<body>x</body>".data
        "Mon, 01 Jan 2024 00:00:00 GMT").1).all
      (fun hd => hd.1 ≠ "Content-Length") = true := by
  constructor
  · decide
  · simp [serveHtmlServeDocs]

/-- Claim C6 as amended: in `live-server.py` and `preview-docs.py` every
response of the HTML branch (in particular every injected one) carries a
`Content-Length` header computed from the exact bytes written;
`serve-docs.py` sends no `Content-Length` on that branch (see the
counterexample). -/
theorem c6_content_length_amended (content : List Char) :
    ("Content-Length", toString (serveHtmlLive content).2.length) ∈
      (serveHtmlLive content).1 ∧
    ("Content-Length", toString (serveHtmlPreview content).2.length) ∈
      (serveHtmlPreview content).1 := by
  constructor
  · have h1 : (serveHtmlLive content).1 =
        [("Content-Type", "text/html"),
         ("Content-Length", toString (serveHtmlLive content).2.length),
         ("Cache-Control", "no-store, no-cache, must-revalidate"),
         ("Access-Control-Allow-Origin", "*")] := rfl
    rw [h1]
    simp
  · have h2 : (serveHtmlPreview content).1 =
        [("Content-Type", "text/html; charset=utf-8"),
         ("Content-Length", toString (serveHtmlPreview content).2.length),
         ("Cache-Control", "no-store, no-cache, must-revalidate"),
         ("Access-Control-Allow-Origin", "*")] := rfl
    rw [h2]
    simp

/-- Claim C10: the injection replaces every occurrence of the closing
body tag: for `n ≥ 1` occurrences, the output is the `n + 1` segments of
the input interleaved with the script followed by the tag (for
`live-server.py` the replacement literal itself ends in the tag), so the
script sits immediately before each of the `n` tags.  The third conjunct
certifies the segments reassemble the input around its `n` tags. -/
theorem c10_every_occurrence (content : List Char) (n : Nat)
    (h : bytesCount body_close.data content = n) (hn : 1 ≤ n) :
    (serveHtmlLive content).2 =
      joinWith reload_script.data (splitSegs body_close.data content) ∧
    (serveHtmlPreview content).2 =
      joinWith (reload_script_preview.data ++ body_close.data)
        (splitSegs body_close.data content) ∧
    content = joinWith body_close.data (splitSegs body_close.data content) ∧
    (splitSegs body_close.data content).length = n + 1 ∧
    body_close.data.isSuffixOf reload_script.data = true := by
  have hpos : countFuel body_close.data content.length content ≠ 0 := by
    unfold bytesCount at h
    omega
  have hcontains : containsSeq body_close.data content = true :=
    contains_of_countFuel_pos _ _ _ hpos
  refine ⟨?_, ?_, ?_, ?_, by decide⟩
  · simp only [serveHtmlLive, hcontains, if_true]
    exact replaceFuel_eq_joinWith _ _ _ _
  · exact replaceFuel_eq_joinWith _ _ _ _
  · exact (joinWith_pat_splitFuel _ _ _).symm
  · have hsl := splitFuel_length body_close.data content.length content
    unfold bytesCount at h
    unfold splitSegs
    omega

/-- A two-tag input for the C10 witness. -/
def c10_input : List Char := "<body>a</body>b</body>".data

theorem c10_witness :
    bytesCount body_close.data c10_input = 2 ∧ 1 ≤ 2 ∧
    ((serveHtmlLive c10_input).2 =
        joinWith reload_script.data (splitSegs body_close.data c10_input) ∧
      (serveHtmlPreview c10_input).2 =
        joinWith (reload_script_preview.data ++ body_close.data)
          (splitSegs body_close.data c10_input) ∧
      c10_input = joinWith body_close.data (splitSegs body_close.data c10_input) ∧
      (splitSegs body_close.data c10_input).length = 2 + 1 ∧
      body_close.data.isSuffixOf reload_script.data = true) :=
  ⟨by decide, by decide, c10_every_occurrence c10_input 2 (by decide) (by decide)⟩

end IGScraper
